import Mathlib

/-!
Shallow embedding of the PRCU (per-CPU read-copy-update) implementation from
kernel/rcu/prcu.c and include/linux/prcu.h (linux-4.12.9 patch set).

Modelling conventions:
* `unsigned long long` version counters are modelled by `Nat`: the design
  document states the 64-bit versions never wrap in practice, and no claim
  exercises wrap-around, so overflow is immaterial here.
* `atomic_t active_ctr` is a 32-bit *signed* C integer; it is modelled by
  `Int` so that the decrement-below-zero behaviour of a mismatched
  `prcu_read_unlock` is representable.
* `long len` is modelled by `Int`.
* `rcu_head` callback records are identified by a `Nat` id; the callback
  list stores ids, its parallel version-stamp list stores the stamps.
* The C callback list keeps `tail` / `version_tail` pointers into the last
  `next` field (or the `head` field when empty).  The list contents are
  modelled by Lean lists; in addition the model tracks, for each of the two
  tail pointers, whether it currently points at the corresponding `head`
  field (`tailIsHeadField`, `versionTailIsHeadField`), updated exactly where
  the C code assigns the tail pointers.
* Each operation of the concurrent C code is embedded as an atomic state
  transformer on the whole-system state (sequentially consistent, coarse
  atomicity).  `synchronize_prcu` is embedded as its sequential execution:
  the IPI handler of a straggling CPU runs inline at the point the IPI is
  sent, and the two blocking points (the spin on straggler versions and
  `wait_event` on `active_ctr`) yield `none` when their condition does not
  already hold, since no other thread can run to change it.
* `kmalloc`/`kfree` of `prcu_version_head` records is modelled by a counter
  `allocatedStamps` of live stamp records: `call_prcu` increments it on a
  successful allocation; no function of prcu.c ever calls `kfree` on a
  stamp, so no operation decrements it.
* `WARN_ON` diagnostics are surfaced as `Bool` results where a claim needs
  them.  The external debug hooks (`debug_rcu_head_queue` etc.), softirq
  raising and the cpu-online check at the top of `prcu_process_callbacks`
  are host-kernel externals outside the modelled state.
-/

namespace PRCU

/-- 64-bit version counter (`unsigned long long` / `atomic64_t`). -/
abbrev Version := Nat

/-- `struct prcu_cblist`: the per-CPU callback list.  `cbs` is the queue of
`rcu_head` records (by id), `vers` the parallel queue of version stamps,
`len` the `long len` field.  `tailIsHeadField` (resp.
`versionTailIsHeadField`) records whether `tail` (resp. `version_tail`)
currently points at the `head` (resp. `version_head`) field. -/
structure PrcuCblist where
  cbs : List Nat
  vers : List Version
  len : Int
  tailIsHeadField : Bool
  versionTailIsHeadField : Bool
deriving Repr, DecidableEq

/-- `struct prcu_local_struct`: PRCU's per-CPU state. -/
structure PrcuLocal where
  locked : Nat
  online : Nat
  version : Version
  cb_version : Version
  cblist : PrcuCblist
deriving Repr, DecidableEq

/-- `struct prcu_struct`: PRCU's global state (the fields the claims
touch; the mutexes, wait queue and barrier fields carry no data). -/
structure PrcuGlobal where
  global_version : Version
  cb_version : Version
  active_ctr : Int
deriving Repr, DecidableEq

/-- Whole-system state: the global record, the per-CPU records (indexed by
CPU number), and the count of live `prcu_version_head` allocations. -/
structure PrcuState where
  global : PrcuGlobal
  locals : Nat → PrcuLocal
  allocatedStamps : Nat

/-- Replace the per-CPU record of `cpu`. -/
def updLocal (st : PrcuState) (cpu : Nat) (l : PrcuLocal) : PrcuState :=
  { st with locals := fun c => if c = cpu then l else st.locals c }

/-- `prcu_cblist_init`: head/version_head NULL, both tails pointing at the
heads, len 0. -/
def prcu_cblist_init : PrcuCblist :=
  { cbs := [], vers := [], len := 0,
    tailIsHeadField := true, versionTailIsHeadField := true }

/-- Result of `prcu_cblist_dequeue`: the returned `rcu_head` pointer
(`none` = NULL), the list afterwards, and whether the function read a
local variable before ever assigning it (the `vhp` read in the empty-list
`WARN_ON`). -/
structure DequeueResult where
  ret : Option Nat
  list : PrcuCblist
  uninitRead : Bool
deriving Repr, DecidableEq

/-- `prcu_cblist_dequeue`.  The outer `Option` is `none` exactly when the C
code dereferences a NULL `version_head` (non-empty callback list but empty
stamp list), which is undefined behaviour.  In the empty-list branch the C
code executes `WARN_ON(vhp)` on the never-assigned local `vhp`, recorded
here as `uninitRead := true`; it returns NULL and leaves the list
untouched. -/
def prcu_cblist_dequeue (rclp : PrcuCblist) : Option DequeueResult :=
  match rclp.cbs, rclp.vers with
  | [], _ => some { ret := none, list := rclp, uninitRead := true }
  | _ :: _, [] => none
  | r :: rest, _ :: vrest =>
      some { ret := some r,
             list := { cbs := rest, vers := vrest, len := rclp.len - 1,
                       tailIsHeadField :=
                         if rest.isEmpty then true else rclp.tailIsHeadField,
                       versionTailIsHeadField :=
                         if rest.isEmpty then true else rclp.versionTailIsHeadField },
             uninitRead := false }

/-- `prcu_report`: read the global grace-period version; if it is beyond
the local version, `cmpxchg` the local version up to it (in the atomic
model the compare-and-swap from the just-read value always succeeds). -/
def prcu_report (g : PrcuGlobal) (l : PrcuLocal) : PrcuLocal :=
  if g.global_version > l.version then { l with version := g.global_version } else l

/-- `prcu_read_lock` on `cpu`: if `online == 0` store 1 (the `smp_mb` has
no content in the sequentially consistent model); increment `locked`. -/
def prcu_read_lock (st : PrcuState) (cpu : Nat) : PrcuState :=
  let l := st.locals cpu
  let l1 := if l.online = 0 then { l with online := 1 } else l
  updLocal st cpu { l1 with locked := l1.locked + 1 }

/-- `prcu_read_unlock` on `cpu`.  Returns the state, whether
`prcu_report` was called, and whether `wake_up(&prcu->wait_q)` fired.
The C code snapshots `locked`; if non-zero it decrements and calls
`prcu_report` exactly when the snapshot was 1; otherwise it atomically
decrements `active_ctr` and wakes the wait queue when the result is 0. -/
def prcu_read_unlock (st : PrcuState) (cpu : Nat) : PrcuState × Bool × Bool :=
  let l := st.locals cpu
  if l.locked ≠ 0 then
    let l1 := { l with locked := l.locked - 1 }
    let l2 := if l.locked = 1 then prcu_report st.global l1 else l1
    (updLocal st cpu l2, l.locked = 1, false)
  else
    let newCtr := st.global.active_ctr - 1
    ({ st with global := { st.global with active_ctr := newCtr } },
     false, newCtr = 0)

/-- `prcu_handler` (the IPI handler), run on `cpu`: if the CPU holds no
read lock, store the global grace-period version into the local version. -/
def prcu_handler (st : PrcuState) (cpu : Nat) : PrcuState :=
  let l := st.locals cpu
  if l.locked = 0 then
    updLocal st cpu { l with version := st.global.global_version }
  else st

/-- `prcu_note_context_switch` on `cpu`: migrate a non-zero `locked` count
into `active_ctr`, clear `online`, then `prcu_report`. -/
def prcu_note_context_switch (st : PrcuState) (cpu : Nat) : PrcuState :=
  let l := st.locals cpu
  let g1 :=
    if l.locked ≠ 0 then
      { st.global with active_ctr := st.global.active_ctr + (l.locked : Int) }
    else st.global
  let l1 := if l.locked ≠ 0 then { l with locked := 0 } else l
  let l2 := { l1 with online := 0 }
  updLocal { st with global := g1 } cpu (prcu_report g1 l2)

/-- The scan loop of `synchronize_prcu` (steps 4 of the design): walk the
possible CPUs; skip offline ones; for an online CPU whose version is
behind `v`, send the IPI (whose handler runs inline in the sequential
model) and record the CPU in the local cpumask. -/
def prcu_scan (v : Version) (cpus : List Nat) (st : PrcuState) :
    PrcuState × List Nat :=
  cpus.foldl
    (fun acc cpu =>
      let l := acc.1.locals cpu
      if l.online = 0 then acc
      else if l.version < v then (prcu_handler acc.1 cpu, cpu :: acc.2)
      else acc)
    (st, [])

/-- The version `v` a `synchronize_prcu` call starting from `st` obtains
from `atomic64_add_return(1, &prcu->global_version)`. -/
def sync_version (st : PrcuState) : Version :=
  st.global.global_version + 1

/-- Steps 1-3 of `synchronize_prcu` from `st` on CPU `me`: the fetch-add
of 1 on the global grace-period version (performed before taking the
writer mutex, which is uncontended in the sequential model), then the
store of the resulting `v` into `me`'s local version. -/
def sync_publish (st : PrcuState) (me : Nat) : PrcuState :=
  updLocal
    { st with global :=
        { st.global with global_version := sync_version st } }
    me
    { st.locals me with version := sync_version st }

/-- `synchronize_prcu`, executed sequentially by CPU `me` over the possible
CPU list `cpus`: fetch-add 1 on the global grace-period version (before
taking the writer mutex), publish the new version `v` locally
(`sync_publish`), scan (`prcu_scan`), spin until each recorded CPU
reaches `v`, wait for `active_ctr == 0`, then store `v` into the global
callback version.  The two blocking points return `none` when their
condition fails to hold, since sequentially nothing can make it become
true. -/
def synchronize_prcu (cpus : List Nat) (me : Nat) (st : PrcuState) :
    Option PrcuState :=
  if (prcu_scan (sync_version st) cpus (sync_publish st me)).2.all
      (fun cpu => sync_version st ≤
        ((prcu_scan (sync_version st) cpus (sync_publish st me)).1.locals cpu).version) then
    if (prcu_scan (sync_version st) cpus (sync_publish st me)).1.global.active_ctr = 0 then
      some { (prcu_scan (sync_version st) cpus (sync_publish st me)).1 with
             global := { (prcu_scan (sync_version st) cpus (sync_publish st me)).1.global with
                         cb_version := sync_version st } }
    else none
  else none

/-- `call_prcu` on `cpu`, enqueueing callback record `head`; `allocOk`
tells whether the `kmalloc(GFP_ATOMIC)` of the version-stamp record
succeeded.  Returns the state and whether the `WARN_ON(1)` diagnostic
fired.  On failure the callback is dropped and nothing is modified; the C
function returns `void` either way, so no error reaches the caller.  On
success the stamp gets the CPU-local version, both records are appended,
`len` is incremented, and both tail pointers now point at the new records'
`next` fields (not the head fields). -/
def call_prcu (st : PrcuState) (cpu : Nat) (head : Nat) (allocOk : Bool) :
    PrcuState × Bool :=
  if allocOk then
    let l := st.locals cpu
    let rclp := l.cblist
    let rclp1 : PrcuCblist :=
      { cbs := rclp.cbs ++ [head], vers := rclp.vers ++ [l.version],
        len := rclp.len + 1,
        tailIsHeadField := false, versionTailIsHeadField := false }
    ({ updLocal st cpu { l with cblist := rclp1 } with
        allocatedStamps := st.allocatedStamps + 1 }, false)
  else (st, true)

/-- `prcu_pending` on `cpu`: `local->cb_version < prcu->cb_version` and
the callback-list head is non-NULL. -/
def prcu_pending (st : PrcuState) (cpu : Nat) : Bool :=
  let l := st.locals cpu
  decide (l.cb_version < st.global.cb_version) && !l.cblist.cbs.isEmpty

/-- The dequeue-and-invoke loop of `prcu_process_callbacks`, iterated on
the list fields: while the head callback and head stamp exist and the
stamp's version is below the snapshot `cbv`, dequeue both (as
`prcu_cblist_dequeue` does: pop both heads, decrement `len`, reset the
tail pointers to the head fields when the list empties) and invoke the
callback.  Returns the final list and the invoked callbacks in order. -/
def prcu_drain_go (cbv : Version) :
    List Nat → List Version → Int → Bool → Bool → PrcuCblist × List Nat
  | r :: rest, v :: vrest, len, t1, t2 =>
      if v < cbv then
        let res := prcu_drain_go cbv rest vrest (len - 1)
          (if rest.isEmpty then true else t1)
          (if rest.isEmpty then true else t2)
        (res.1, r :: res.2)
      else
        ({ cbs := r :: rest, vers := v :: vrest, len := len,
           tailIsHeadField := t1, versionTailIsHeadField := t2 }, [])
  | [], vers, len, t1, t2 =>
      ({ cbs := [], vers := vers, len := len,
         tailIsHeadField := t1, versionTailIsHeadField := t2 }, [])
  | cbs, [], len, t1, t2 =>
      ({ cbs := cbs, vers := [], len := len,
         tailIsHeadField := t1, versionTailIsHeadField := t2 }, [])

/-- `prcu_drain_go` packaged on a `PrcuCblist`. -/
def prcu_drain (cbv : Version) (rclp : PrcuCblist) : PrcuCblist × List Nat :=
  prcu_drain_go cbv rclp.cbs rclp.vers rclp.len
    rclp.tailIsHeadField rclp.versionTailIsHeadField

/-- `prcu_process_callbacks` on `cpu`: snapshot the global callback
version, drain every head callback whose stamp is strictly below the
snapshot (freeing nothing: the C code never calls `kfree` on the dequeued
`prcu_version_head`, so `allocatedStamps` is unchanged), then store the
snapshot into the local `cb_version`.  Returns the state and the invoked
callbacks in order.  (The `cpu_is_offline` early exit consults host state
outside this model.) -/
def prcu_process_callbacks (st : PrcuState) (cpu : Nat) :
    PrcuState × List Nat :=
  let cb_version := st.global.cb_version
  let l := st.locals cpu
  let res := prcu_drain cb_version l.cblist
  (updLocal st cpu { l with cblist := res.1, cb_version := cb_version }, res.2)

/-- The static initializer of `global_prcu`: both versions and
`active_ctr` zero. -/
def global_prcu_init : PrcuGlobal :=
  { global_version := 0, cb_version := 0, active_ctr := 0 }

/-- `prcu_init_local_struct`: all four scalar fields zeroed and the
callback list initialized by `prcu_cblist_init`. -/
def prcu_init_local_struct : PrcuLocal :=
  { locked := 0, online := 0, version := 0, cb_version := 0,
    cblist := prcu_cblist_init }

/-- `prcu_init` over the possible-CPU list, starting from arbitrary
per-CPU contents `locals0`: the global record is the static
`global_prcu` initializer, every possible CPU's record is initialized by
`prcu_init_local_struct`, and no stamp record has been allocated yet. -/
def prcu_init (cpus : List Nat) (locals0 : Nat → PrcuLocal) : PrcuState :=
  { global := global_prcu_init,
    locals := cpus.foldl (fun f cpu => fun c => if c = cpu then prcu_init_local_struct else f c) locals0,
    allocatedStamps := 0 }

/-- A one-CPU freshly initialized system state. -/
def initState : PrcuState := prcu_init [0] fun _ => prcu_init_local_struct

/-- The version-order invariant: the global callback version never exceeds
the global grace-period version, every CPU's local version never exceeds
the global grace-period version, and every CPU's local callback version
never exceeds the global callback version. -/
def VersionInv (st : PrcuState) : Prop :=
  st.global.cb_version ≤ st.global.global_version ∧
  (∀ cpu, (st.locals cpu).version ≤ st.global.global_version) ∧
  (∀ cpu, (st.locals cpu).cb_version ≤ st.global.cb_version)

/-- Monotonicity of the versions across one transition: the global
grace-period and callback versions and every CPU's local version only
grow. -/
def VersionMono (st st' : PrcuState) : Prop :=
  st.global.global_version ≤ st'.global.global_version ∧
  st.global.cb_version ≤ st'.global.cb_version ∧
  ∀ cpu, (st.locals cpu).version ≤ (st'.locals cpu).version

/-- One atomic operation of the PRCU interface, over the possible-CPU list
`cpus` (used by `synchronize_prcu`'s scan). -/
inductive Step (cpus : List Nat) : PrcuState → PrcuState → Prop where
  | read_lock (st : PrcuState) (cpu : Nat) :
      Step cpus st (prcu_read_lock st cpu)
  | read_unlock (st : PrcuState) (cpu : Nat) :
      Step cpus st (prcu_read_unlock st cpu).1
  | handler (st : PrcuState) (cpu : Nat) :
      Step cpus st (prcu_handler st cpu)
  | note_context_switch (st : PrcuState) (cpu : Nat) :
      Step cpus st (prcu_note_context_switch st cpu)
  | call (st : PrcuState) (cpu head : Nat) (allocOk : Bool) :
      Step cpus st (call_prcu st cpu head allocOk).1
  | process (st : PrcuState) (cpu : Nat) :
      Step cpus st (prcu_process_callbacks st cpu).1
  | sync (st st' : PrcuState) (me : Nat) :
      synchronize_prcu cpus me st = some st' → Step cpus st st'

/-- Structural well-formedness of a per-CPU callback list, relative to the
CPU's local version `locver`: the callback and stamp queues have equal
length, equal to `len`; the stamps are non-decreasing from head to tail;
every stamp is at most the local version (each was assigned from
`local->version`, which only grows); and when `len == 0` both tail
pointers point at their respective head fields. -/
def CblistWf (rclp : PrcuCblist) (locver : Version) : Prop :=
  rclp.cbs.length = rclp.vers.length ∧
  rclp.len = (rclp.cbs.length : Int) ∧
  List.Sorted (· ≤ ·) rclp.vers ∧
  (∀ v ∈ rclp.vers, v ≤ locver) ∧
  (rclp.len = 0 → rclp.tailIsHeadField = true ∧ rclp.versionTailIsHeadField = true)

/-- The concrete failing state for the stamp-record leak: one callback
(id 7) enqueued on CPU 0 with stamp 0, global callback version already 1,
one stamp record live. -/
def leakState : PrcuState :=
  { global := { global_version := 1, cb_version := 1, active_ctr := 0 },
    locals := fun _ =>
      { locked := 0, online := 0, version := 0, cb_version := 0,
        cblist := { cbs := [7], vers := [0], len := 1,
                    tailIsHeadField := false, versionTailIsHeadField := false } },
    allocatedStamps := 1 }

/-- A state whose CPU 0 holds one outermost read lock while the global
grace-period version has moved to 5. -/
def unlockStateA : PrcuState :=
  { global := { global_version := 5, cb_version := 3, active_ctr := 0 },
    locals := fun _ =>
      { locked := 1, online := 1, version := 2, cb_version := 3,
        cblist := prcu_cblist_init },
    allocatedStamps := 0 }

/-- A state whose CPU 0 holds no read lock and `active_ctr` is 0: an
unlock here is the migrated-reader (or misuse) path. -/
def unlockStateB : PrcuState :=
  { global := { global_version := 5, cb_version := 3, active_ctr := 0 },
    locals := fun _ =>
      { locked := 0, online := 0, version := 5, cb_version := 3,
        cblist := prcu_cblist_init },
    allocatedStamps := 0 }

/-! Theorems. -/

/-- `prcu_report` raises the local version exactly to the maximum of the
local and global versions. -/
theorem prcu_report_version (g : PrcuGlobal) (l : PrcuLocal) :
    (prcu_report g l).version = max l.version g.global_version := by
  unfold prcu_report
  split <;> rename_i h
  · exact (Nat.max_eq_right (Nat.le_of_lt h)).symm
  · exact (Nat.max_eq_left (Nat.le_of_not_lt h)).symm

/-- `prcu_report` touches no field other than `version`. -/
theorem prcu_report_locked (g : PrcuGlobal) (l : PrcuLocal) :
    (prcu_report g l).locked = l.locked := by
  unfold prcu_report; split <;> rfl

/-- `prcu_report` touches no field other than `version`. -/
theorem prcu_report_online (g : PrcuGlobal) (l : PrcuLocal) :
    (prcu_report g l).online = l.online := by
  unfold prcu_report; split <;> rfl

/-- `prcu_report` touches no field other than `version`. -/
theorem prcu_report_cb_version (g : PrcuGlobal) (l : PrcuLocal) :
    (prcu_report g l).cb_version = l.cb_version := by
  unfold prcu_report; split <;> rfl

/-- `prcu_report` touches no field other than `version`. -/
theorem prcu_report_cblist (g : PrcuGlobal) (l : PrcuLocal) :
    (prcu_report g l).cblist = l.cblist := by
  unfold prcu_report; split <;> rfl

/-- Claim C5: `prcu_pending` returns true if and only if the current
processor's local `cb_version` is strictly less than the global `cbv` and
the processor's callback list is non-empty. -/
theorem c5_prcu_pending_iff (st : PrcuState) (cpu : Nat) :
    prcu_pending st cpu = true ↔
      ((st.locals cpu).cb_version < st.global.cb_version ∧
        (st.locals cpu).cblist.cbs ≠ []) := by
  simp [prcu_pending]

/-- Claim C8: if the allocation of the version-stamp record in `call_prcu`
fails, the callback is dropped, the `WARN_ON(1)` diagnostic fires
(the `true` component), and the whole PRCU state is returned unchanged;
the function's only output is that state and the diagnostic — no error
value reaches the caller. -/
theorem c8_call_prcu_alloc_failure (st : PrcuState) (cpu head : Nat) :
    call_prcu st cpu head false = (st, true) := rfl

/-- Counterexample to claim C9 as stated: on the empty list the dequeue
does read a local before initializing it — the result's `uninitRead` flag
is `true`, not `false`. -/
theorem c9_counterexample :
    prcu_cblist_dequeue prcu_cblist_init =
      some { ret := none, list := prcu_cblist_init, uninitRead := true } ∧
    prcu_cblist_dequeue prcu_cblist_init ≠
      some { ret := none, list := prcu_cblist_init, uninitRead := false } := by
  exact ⟨rfl, by decide⟩

/-- Claim C9 (amended): for every callback list with NULL head,
`prcu_cblist_dequeue` returns NULL and leaves the list unchanged, and in
that empty-list branch the local `vhp` consulted by the diagnostic
`WARN_ON(vhp)` is read before the function has ever assigned it (an
uninitialized read, recorded by `uninitRead := true`). -/
theorem c9_dequeue_empty (rclp : PrcuCblist) (h : rclp.cbs = []) :
    prcu_cblist_dequeue rclp =
      some { ret := none, list := rclp, uninitRead := true } := by
  unfold prcu_cblist_dequeue
  rw [h]

/-- Witness for `c9_dequeue_empty` at the freshly initialized list. -/
theorem c9_dequeue_empty_witness :
    prcu_cblist_dequeue prcu_cblist_init =
      some { ret := none, list := prcu_cblist_init, uninitRead := true } :=
  c9_dequeue_empty prcu_cblist_init rfl

/-- Claim C4, evaluated at the failing input `leakState` (one callback,
id 7, stamped 0, on CPU 0; global callback version 1; one live stamp
record): `prcu_process_callbacks` invokes the ready callback, empties the
list, stores the snapshot 1 into the local `cb_version` — but the
dequeued version-stamp record is never freed, so the live-stamp count
remains 1 where the claim requires it to drop to 0. -/
theorem c4_stamp_record_leak :
    (prcu_process_callbacks leakState 0).2 = [7] ∧
    ((prcu_process_callbacks leakState 0).1.locals 0).cblist.cbs = [] ∧
    ((prcu_process_callbacks leakState 0).1.locals 0).cb_version = 1 ∧
    (prcu_process_callbacks leakState 0).1.allocatedStamps = 1 := by
  refine ⟨rfl, rfl, rfl, rfl⟩

/-- The per-CPU record produced by `prcu_init`: every possible CPU is set
to `prcu_init_local_struct`, the rest keep their prior contents. -/
theorem prcu_init_locals (cpus : List Nat) (locals0 : Nat → PrcuLocal)
    (cpu : Nat) :
    (prcu_init cpus locals0).locals cpu =
      if cpu ∈ cpus then prcu_init_local_struct else locals0 cpu := by
  show (cpus.foldl
      (fun f c => fun x => if x = c then prcu_init_local_struct else f x)
      locals0) cpu = _
  induction cpus generalizing locals0 with
  | nil => simp
  | cons c cs ih =>
      simp only [List.foldl_cons, ih, List.mem_cons]
      by_cases hc : cpu ∈ cs
      · simp [hc]
      · by_cases he : cpu = c <;> simp [hc, he]

/-- Claim C10: after `prcu_init` every possible processor's record has
`locked == 0`, `online == 0`, `version == 0`, `cb_version == 0` and an
empty callback list (NULL head and version head, both tail pointers at
the head fields, `len == 0`); the global state has `gpv == 0`,
`cbv == 0`, `active_ctr == 0`; `prcu_pending` is false on every
processor; and `cbv ≤ gpv` holds. -/
theorem c10_initial_state (cpus : List Nat) (locals0 : Nat → PrcuLocal)
    (cpu : Nat) (h : cpu ∈ cpus) :
    ((prcu_init cpus locals0).locals cpu).locked = 0 ∧
    ((prcu_init cpus locals0).locals cpu).online = 0 ∧
    ((prcu_init cpus locals0).locals cpu).version = 0 ∧
    ((prcu_init cpus locals0).locals cpu).cb_version = 0 ∧
    ((prcu_init cpus locals0).locals cpu).cblist.cbs = [] ∧
    ((prcu_init cpus locals0).locals cpu).cblist.vers = [] ∧
    ((prcu_init cpus locals0).locals cpu).cblist.len = 0 ∧
    ((prcu_init cpus locals0).locals cpu).cblist.tailIsHeadField = true ∧
    ((prcu_init cpus locals0).locals cpu).cblist.versionTailIsHeadField = true ∧
    (prcu_init cpus locals0).global.global_version = 0 ∧
    (prcu_init cpus locals0).global.cb_version = 0 ∧
    (prcu_init cpus locals0).global.active_ctr = 0 ∧
    (∀ c, prcu_pending (prcu_init cpus locals0) c = false) ∧
    (prcu_init cpus locals0).global.cb_version ≤
      (prcu_init cpus locals0).global.global_version := by
  have hl := prcu_init_locals cpus locals0 cpu
  rw [if_pos h] at hl
  refine ⟨by rw [hl]; rfl, by rw [hl]; rfl, by rw [hl]; rfl, by rw [hl]; rfl,
    by rw [hl]; rfl, by rw [hl]; rfl, by rw [hl]; rfl, by rw [hl]; rfl,
    by rw [hl]; rfl, rfl, rfl, rfl, ?_, le_refl _⟩
  intro c
  simp [prcu_pending, prcu_init, global_prcu_init]

/-- Witness for `c10_initial_state` at a one-CPU system. -/
theorem c10_initial_state_witness :
    (0 : Nat) ∈ [0] ∧
    (initState.locals 0).locked = 0 ∧ initState.global.global_version = 0 ∧
    prcu_pending initState 0 = false := by
  have h := c10_initial_state [0] (fun _ => prcu_init_local_struct) 0
    (by simp)
  exact ⟨by simp, h.1, h.2.2.2.2.2.2.2.2.2.1, h.2.2.2.2.2.2.2.2.2.2.2.2.1 0⟩

/-- Claim C6: `prcu_read_unlock` behaves by cases on the local reader
count.  If `locked > 0` it decrements `locked`, calls `prcu_report`
(advancing the local version up to `gpv`) exactly when the decrement
reaches zero, and leaves the global record (in particular `active_ctr`)
untouched.  If `locked == 0` it decrements `active_ctr`
(over the signed `Int`, so from 0 it silently underflows to -1 with
no diagnostic), wakes the wait queue exactly when the result is zero, and
leaves every per-CPU record untouched. -/
theorem c6_read_unlock_cases (st : PrcuState) (cpu : Nat) :
    ((st.locals cpu).locked ≠ 0 →
      ((prcu_read_unlock st cpu).1.locals cpu).locked
          = (st.locals cpu).locked - 1 ∧
      ((prcu_read_unlock st cpu).2.1 = true ↔ (st.locals cpu).locked = 1) ∧
      ((st.locals cpu).locked = 1 →
        ((prcu_read_unlock st cpu).1.locals cpu).version
            = max (st.locals cpu).version st.global.global_version) ∧
      (prcu_read_unlock st cpu).1.global = st.global) ∧
    ((st.locals cpu).locked = 0 →
      (prcu_read_unlock st cpu).1.global.active_ctr
          = st.global.active_ctr - 1 ∧
      ((prcu_read_unlock st cpu).2.2 = true ↔ st.global.active_ctr - 1 = 0) ∧
      (prcu_read_unlock st cpu).1.locals = st.locals) := by
  constructor
  · intro hne
    unfold prcu_read_unlock
    rw [if_pos hne]
    refine ⟨?_, by simp, ?_, rfl⟩
    · by_cases h1 : (st.locals cpu).locked = 1
      · simp [h1, updLocal, prcu_report_locked]
      · simp [h1, updLocal]
    · intro h1
      simp [h1, updLocal, prcu_report_version]
  · intro hz
    unfold prcu_read_unlock
    rw [if_neg (by simp [hz])]
    exact ⟨rfl, by simp, rfl⟩

/-- Witness for `c6_read_unlock_cases`: on `unlockStateA` (locked 1,
local version 2, gpv 5) the unlock clears `locked` and reports the local
version up to 5; on `unlockStateB` (locked 0, `active_ctr` 0) the unlock
drives `active_ctr` to -1 without waking the wait queue. -/
theorem c6_read_unlock_cases_witness :
    (unlockStateA.locals 0).locked ≠ 0 ∧
    ((prcu_read_unlock unlockStateA 0).1.locals 0).locked = 0 ∧
    ((prcu_read_unlock unlockStateA 0).1.locals 0).version = 5 ∧
    (unlockStateB.locals 0).locked = 0 ∧
    (prcu_read_unlock unlockStateB 0).1.global.active_ctr = -1 ∧
    (prcu_read_unlock unlockStateB 0).2.2 = false := by
  have hA := (c6_read_unlock_cases unlockStateA 0).1 (by decide)
  have hB := (c6_read_unlock_cases unlockStateB 0).2 (by decide)
  refine ⟨by decide, ?_, ?_, by decide, ?_, ?_⟩
  · simpa using hA.1
  · simpa using hA.2.2.1 (by decide)
  · simpa using hB.1
  · cases hb : (prcu_read_unlock unlockStateB 0).2.2 with
    | false => rfl
    | true =>
        have := (hB.2.1).mp hb
        simp [unlockStateB] at this

/-- Claim C7: the callback-list structural invariant — equal lengths of
the callback and version-stamp queues, both equal to `len`;
non-decreasing stamps (together with the stamp bound by the local version
that enqueueing maintains); both tail pointers at the head fields when
`len == 0` — is preserved by every `call_prcu` enqueue (on the enqueueing
CPU's list) and by every `prcu_cblist_dequeue`. -/
theorem c7_cblist_invariant (st : PrcuState) (cpu head : Nat)
    (allocOk : Bool) (rclp : PrcuCblist) (locver : Version)
    (hst : CblistWf (st.locals cpu).cblist (st.locals cpu).version)
    (hrc : CblistWf rclp locver) :
    CblistWf ((call_prcu st cpu head allocOk).1.locals cpu).cblist
      ((call_prcu st cpu head allocOk).1.locals cpu).version ∧
    ∃ res, prcu_cblist_dequeue rclp = some res ∧ CblistWf res.list locver := by
  constructor
  · cases allocOk with
    | false => exact hst
    | true =>
        obtain ⟨hlen, hlenf, hsort, hbound, htail⟩ := hst
        have hloc : (call_prcu st cpu head true).1.locals cpu =
            { st.locals cpu with cblist :=
              { cbs := (st.locals cpu).cblist.cbs ++ [head],
                vers := (st.locals cpu).cblist.vers ++ [(st.locals cpu).version],
                len := (st.locals cpu).cblist.len + 1,
                tailIsHeadField := false,
                versionTailIsHeadField := false } } := by
          unfold call_prcu updLocal
          simp
        rw [hloc]
        refine ⟨by simp [hlen], by simp [hlenf], ?_, ?_, ?_⟩
        · show List.Sorted (· ≤ ·) ((st.locals cpu).cblist.vers ++ [(st.locals cpu).version])
          rw [List.Sorted, List.pairwise_append]
          refine ⟨hsort, List.pairwise_singleton _ _, ?_⟩
          intro a ha b hb
          rw [List.mem_singleton] at hb
          subst hb
          exact hbound a ha
        · intro v hv
          rcases List.mem_append.mp hv with h | h
          · exact hbound v h
          · rw [List.mem_singleton] at h
            subst h
            exact le_refl _
        · intro h
          exfalso
          simp only at h
          omega
  · obtain ⟨cbs, vers, len, t1, t2⟩ := rclp
    obtain ⟨hlen, hlenf, hsort, hbound, htail⟩ := hrc
    simp only at hlen hlenf hsort hbound htail
    cases cbs with
    | nil =>
        exact ⟨{ ret := none, list := ⟨[], vers, len, t1, t2⟩,
                 uninitRead := true }, rfl,
               ⟨hlen, hlenf, hsort, hbound, htail⟩⟩
    | cons r rest =>
        cases vers with
        | nil => simp at hlen
        | cons v vrest =>
            refine ⟨{ ret := some r,
                      list := ⟨rest, vrest, len - 1,
                        if rest.isEmpty then true else t1,
                        if rest.isEmpty then true else t2⟩,
                      uninitRead := false }, rfl, ?_, ?_, ?_, ?_, ?_⟩
            · simpa using hlen
            · simp only
              simp only [List.length_cons] at hlenf
              omega
            · exact (List.sorted_cons.mp hsort).2
            · intro w hw
              exact hbound w (List.mem_cons_of_mem v hw)
            · intro h
              simp only at h
              simp only [List.length_cons] at hlenf
              have hr : rest = [] := List.eq_nil_of_length_eq_zero (by omega)
              subst hr
              simp

/-- Witness for `c7_cblist_invariant`: enqueue of callback 9 on
`leakState`'s CPU 0 and dequeue of the freshly initialized list both
preserve the invariant. -/
theorem c7_cblist_invariant_witness :
    CblistWf ((call_prcu leakState 0 9 true).1.locals 0).cblist
      ((call_prcu leakState 0 9 true).1.locals 0).version ∧
    ∃ res, prcu_cblist_dequeue prcu_cblist_init = some res ∧
      CblistWf res.list 0 :=
  c7_cblist_invariant leakState 0 9 true prcu_cblist_init 0
    (by constructor <;> simp [leakState, CblistWf])
    (by simp [CblistWf, prcu_cblist_init])

/-- `List.foldl` preserves any invariant preserved by each step. -/
theorem foldl_invariant {α β : Type} (P : α → Prop) (f : α → β → α)
    (l : List β) (a : α) (h0 : P a) (hf : ∀ x b, b ∈ l → P x → P (f x b)) :
    P (l.foldl f a) := by
  induction l generalizing a with
  | nil => exact h0
  | cons b bs ih =>
      exact ih (f a b) (hf a b (List.mem_cons_self b bs) h0)
        fun x c hc hx => hf x c (List.mem_cons_of_mem b hc) hx

/-- The grace-period scan does nothing when every possible CPU is
offline. -/
theorem prcu_scan_offline (v : Version) (cpus : List Nat) (st : PrcuState)
    (h : ∀ cpu ∈ cpus, (st.locals cpu).online = 0) :
    prcu_scan v cpus st = (st, []) := by
  unfold prcu_scan
  induction cpus with
  | nil => rfl
  | cons c cs ih =>
      simp only [List.foldl_cons]
      rw [if_pos (h c (List.mem_cons_self c cs))]
      exact ih fun cpu hc => h cpu (List.mem_cons_of_mem c hc)

/-- Claim C2: `synchronize_prcu` obtains its version `v` as the atomic
fetch-add of 1 on `gpv` taken before the writer mutex, and before
returning stores exactly that `v` into `cbv`; with every possible CPU
offline (no readers) and `active_ctr == 0` the call returns without
blocking, leaving `gpv` and `cbv` both equal to the old `gpv + 1`. -/
theorem c2_synchronize_versions (cpus : List Nat) (me : Nat)
    (st : PrcuState)
    (hon : ∀ cpu ∈ cpus, (st.locals cpu).online = 0)
    (hac : st.global.active_ctr = 0) :
    ∃ st', synchronize_prcu cpus me st = some st' ∧
      st'.global.global_version = st.global.global_version + 1 ∧
      st'.global.cb_version = st.global.global_version + 1 := by
  have hon2 : ∀ cpu ∈ cpus, ((sync_publish st me).locals cpu).online = 0 := by
    intro cpu hc
    unfold sync_publish updLocal
    by_cases hme : cpu = me
    · subst hme
      simpa using hon cpu hc
    · simpa [hme] using hon cpu hc
  unfold synchronize_prcu
  rw [prcu_scan_offline _ _ _ hon2]
  simp only [List.all_nil, if_true]
  rw [if_pos (show (sync_publish st me).global.active_ctr = 0 from hac)]
  exact ⟨_, rfl, rfl, rfl⟩

/-- Witness for `c2_synchronize_versions`: from the freshly initialized
one-CPU state, `synchronize_prcu` returns with `gpv = 1` and `cbv = 1`. -/
theorem c2_synchronize_versions_witness :
    (∀ cpu ∈ [0], ((initState).locals cpu).online = 0) ∧
    initState.global.active_ctr = 0 ∧
    ∃ st', synchronize_prcu [0] 0 initState = some st' ∧
      st'.global.global_version = 1 ∧ st'.global.cb_version = 1 := by
  refine ⟨?_, rfl, ?_⟩
  · intro cpu _
    show ((prcu_init [0] _).locals cpu).online = 0
    rw [prcu_init_locals]
    split <;> rfl
  · have h := c2_synchronize_versions [0] 0 initState
      (by
        intro cpu _
        show ((prcu_init [0] _).locals cpu).online = 0
        rw [prcu_init_locals]
        split <;> rfl)
      rfl
    simpa using h

/-- Reading `updLocal`'s per-CPU table. -/
theorem updLocal_locals (st : PrcuState) (cpu : Nat) (l : PrcuLocal)
    (c : Nat) :
    (updLocal st cpu l).locals c = if c = cpu then l else st.locals c := rfl

/-- `updLocal` keeps the global record. -/
theorem updLocal_global (st : PrcuState) (cpu : Nat) (l : PrcuLocal) :
    (updLocal st cpu l).global = st.global := rfl

/-- `prcu_read_lock` touches neither the global record nor any local
version field. -/
theorem prcu_read_lock_frame (st : PrcuState) (cpu c : Nat) :
    (prcu_read_lock st cpu).global = st.global ∧
    ((prcu_read_lock st cpu).locals c).version = (st.locals c).version ∧
    ((prcu_read_lock st cpu).locals c).cb_version
      = (st.locals c).cb_version := by
  have hl : (prcu_read_lock st cpu).locals c
      = if c = cpu then
          { (if (st.locals cpu).online = 0
              then { st.locals cpu with online := 1 } else st.locals cpu)
            with locked :=
              (if (st.locals cpu).online = 0
                then { st.locals cpu with online := 1 } else st.locals cpu).locked
                + 1 }
        else st.locals c := rfl
  refine ⟨rfl, ?_, ?_⟩ <;>
    · rw [hl]
      by_cases hc : c = cpu
      · rw [if_pos hc, hc]
        by_cases ho : (st.locals cpu).online = 0 <;> simp [ho]
      · rw [if_neg hc]

/-- `prcu_read_unlock` keeps both global versions and every local
`cb_version`, and moves a local version at most up to the global
grace-period version (via `prcu_report`) and never down. -/
theorem prcu_read_unlock_frame (st : PrcuState) (cpu c : Nat) :
    (prcu_read_unlock st cpu).1.global.global_version
        = st.global.global_version ∧
    (prcu_read_unlock st cpu).1.global.cb_version
        = st.global.cb_version ∧
    ((prcu_read_unlock st cpu).1.locals c).cb_version
        = (st.locals c).cb_version ∧
    (st.locals c).version ≤ ((prcu_read_unlock st cpu).1.locals c).version ∧
    ((prcu_read_unlock st cpu).1.locals c).version
        ≤ max (st.locals c).version st.global.global_version := by
  have hstep : prcu_read_unlock st cpu
      = if (st.locals cpu).locked ≠ 0 then
          (updLocal st cpu
            (if (st.locals cpu).locked = 1
             then prcu_report st.global
               { st.locals cpu with locked := (st.locals cpu).locked - 1 }
             else { st.locals cpu with locked := (st.locals cpu).locked - 1 }),
           decide ((st.locals cpu).locked = 1), false)
        else
          ({ st with global :=
              { st.global with active_ctr := st.global.active_ctr - 1 } },
           false, decide (st.global.active_ctr - 1 = 0)) := rfl
  by_cases h : (st.locals cpu).locked ≠ 0
  · rw [hstep, if_pos h]
    refine ⟨rfl, rfl, ?_, ?_, ?_⟩
    · dsimp only
      rw [updLocal_locals]
      by_cases hc : c = cpu
      · rw [if_pos hc, hc]
        by_cases h1 : (st.locals cpu).locked = 1 <;>
          simp [h1, prcu_report_cb_version]
      · rw [if_neg hc]
    · dsimp only
      rw [updLocal_locals]
      by_cases hc : c = cpu
      · rw [if_pos hc, hc]
        by_cases h1 : (st.locals cpu).locked = 1 <;>
          simp [h1, prcu_report_version, Nat.le_max_left]
      · rw [if_neg hc]
    · dsimp only
      rw [updLocal_locals]
      by_cases hc : c = cpu
      · rw [if_pos hc, hc]
        by_cases h1 : (st.locals cpu).locked = 1 <;>
          simp [h1, prcu_report_version, Nat.le_max_left]
      · rw [if_neg hc]
        exact Nat.le_max_left _ _
  · rw [hstep, if_neg h]
    exact ⟨rfl, rfl, rfl, le_refl _, Nat.le_max_left _ _⟩

/-- `prcu_handler` keeps the global record and either keeps a local
record or sets its version to the global grace-period version. -/
theorem prcu_handler_frame (st : PrcuState) (cpu c : Nat) :
    (prcu_handler st cpu).global = st.global ∧
    ((prcu_handler st cpu).locals c = st.locals c ∨
      (prcu_handler st cpu).locals c
        = { st.locals c with version := st.global.global_version }) := by
  have hstep : prcu_handler st cpu
      = if (st.locals cpu).locked = 0
        then updLocal st cpu
          { st.locals cpu with version := st.global.global_version }
        else st := rfl
  by_cases h : (st.locals cpu).locked = 0
  · rw [hstep, if_pos h]
    refine ⟨rfl, ?_⟩
    rw [updLocal_locals]
    by_cases hc : c = cpu
    · rw [if_pos hc, hc]
      exact Or.inr rfl
    · rw [if_neg hc]
      exact Or.inl rfl
  · rw [hstep, if_neg h]
    exact ⟨rfl, Or.inl rfl⟩

/-- `prcu_note_context_switch` keeps both global versions and every local
`cb_version`, and moves a local version at most up to the global
grace-period version and never down. -/
theorem prcu_note_context_switch_frame (st : PrcuState) (cpu c : Nat) :
    (prcu_note_context_switch st cpu).global.global_version
        = st.global.global_version ∧
    (prcu_note_context_switch st cpu).global.cb_version
        = st.global.cb_version ∧
    ((prcu_note_context_switch st cpu).locals c).cb_version
        = (st.locals c).cb_version ∧
    (st.locals c).version
        ≤ ((prcu_note_context_switch st cpu).locals c).version ∧
    ((prcu_note_context_switch st cpu).locals c).version
        ≤ max (st.locals c).version st.global.global_version := by
  have hg : (prcu_note_context_switch st cpu).global
      = (if (st.locals cpu).locked ≠ 0
          then { st.global with
                 active_ctr :=
                   st.global.active_ctr + ((st.locals cpu).locked : Int) }
          else st.global) := rfl
  have hl : (prcu_note_context_switch st cpu).locals c
      = (if c = cpu then
           prcu_report
             (if (st.locals cpu).locked ≠ 0
               then { st.global with
                      active_ctr :=
                        st.global.active_ctr + ((st.locals cpu).locked : Int) }
               else st.global)
             { (if (st.locals cpu).locked ≠ 0
                 then { st.locals cpu with locked := 0 } else st.locals cpu)
               with online := 0 }
         else st.locals c) := rfl
  refine ⟨?_, ?_, ?_, ?_, ?_⟩
  · rw [hg]
    by_cases h : (st.locals cpu).locked ≠ 0 <;> simp [h]
  · rw [hg]
    by_cases h : (st.locals cpu).locked ≠ 0 <;> simp [h]
  · rw [hl]
    by_cases hc : c = cpu
    · rw [if_pos hc, prcu_report_cb_version, hc]
      by_cases h : (st.locals cpu).locked ≠ 0 <;> simp [h]
    · rw [if_neg hc]
  · rw [hl]
    by_cases hc : c = cpu
    · rw [if_pos hc, prcu_report_version, hc]
      by_cases h : (st.locals cpu).locked ≠ 0 <;>
        simp [h, Nat.le_max_left]
    · rw [if_neg hc]
  · rw [hl]
    by_cases hc : c = cpu
    · rw [if_pos hc, prcu_report_version, hc]
      by_cases h : (st.locals cpu).locked ≠ 0 <;>
        simp [h, Nat.le_max_left]
    · rw [if_neg hc]
      exact Nat.le_max_left _ _

/-- `call_prcu` touches neither the global record nor any local version
field. -/
theorem call_prcu_frame (st : PrcuState) (cpu head : Nat) (allocOk : Bool)
    (c : Nat) :
    (call_prcu st cpu head allocOk).1.global = st.global ∧
    ((call_prcu st cpu head allocOk).1.locals c).version
      = (st.locals c).version ∧
    ((call_prcu st cpu head allocOk).1.locals c).cb_version
      = (st.locals c).cb_version := by
  cases allocOk with
  | false => exact ⟨rfl, rfl, rfl⟩
  | true =>
      have hl : (call_prcu st cpu head true).1.locals c
          = if c = cpu then
              { st.locals cpu with cblist :=
                { cbs := (st.locals cpu).cblist.cbs ++ [head],
                  vers := (st.locals cpu).cblist.vers
                            ++ [(st.locals cpu).version],
                  len := (st.locals cpu).cblist.len + 1,
                  tailIsHeadField := false,
                  versionTailIsHeadField := false } }
            else st.locals c := rfl
      refine ⟨rfl, ?_, ?_⟩ <;>
        · rw [hl]
          by_cases hc : c = cpu
          · rw [if_pos hc, hc]
          · rw [if_neg hc]

/-- `prcu_process_callbacks` keeps the global record and every local
version, and either keeps a local `cb_version` or sets it to the global
callback version. -/
theorem prcu_process_callbacks_frame (st : PrcuState) (cpu c : Nat) :
    (prcu_process_callbacks st cpu).1.global = st.global ∧
    ((prcu_process_callbacks st cpu).1.locals c).version
        = (st.locals c).version ∧
    (((prcu_process_callbacks st cpu).1.locals c).cb_version
        = (st.locals c).cb_version ∨
      ((prcu_process_callbacks st cpu).1.locals c).cb_version
        = st.global.cb_version) := by
  have hl : (prcu_process_callbacks st cpu).1.locals c
      = if c = cpu then
          { st.locals cpu with
            cblist := (prcu_drain st.global.cb_version
                        (st.locals cpu).cblist).1,
            cb_version := st.global.cb_version }
        else st.locals c := rfl
  refine ⟨rfl, ?_, ?_⟩
  · rw [hl]
    by_cases hc : c = cpu
    · rw [if_pos hc, hc]
    · rw [if_neg hc]
  · rw [hl]
    by_cases hc : c = cpu
    · rw [if_pos hc]
      exact Or.inr rfl
    · rw [if_neg hc]
      exact Or.inl rfl

/-- Helper for `prcu_scan_frame`: the fold of the scan body, started from
any accumulator whose state agrees with `st` up to version updates, keeps
that agreement. -/
theorem prcu_scan_frame_aux (v : Version) (st : PrcuState)
    (cpus : List Nat) :
    ∀ acc : PrcuState × List Nat,
      acc.1.global = st.global →
      (∀ c, (acc.1.locals c = st.locals c ∨
        acc.1.locals c
          = { st.locals c with version := st.global.global_version })) →
      ((cpus.foldl
          (fun acc cpu =>
            let l := acc.1.locals cpu
            if l.online = 0 then acc
            else if l.version < v then (prcu_handler acc.1 cpu, cpu :: acc.2)
            else acc)
          acc).1.global = st.global ∧
       ∀ c, ((cpus.foldl
          (fun acc cpu =>
            let l := acc.1.locals cpu
            if l.online = 0 then acc
            else if l.version < v then (prcu_handler acc.1 cpu, cpu :: acc.2)
            else acc)
          acc).1.locals c = st.locals c ∨
        (cpus.foldl
          (fun acc cpu =>
            let l := acc.1.locals cpu
            if l.online = 0 then acc
            else if l.version < v then (prcu_handler acc.1 cpu, cpu :: acc.2)
            else acc)
          acc).1.locals c
          = { st.locals c with version := st.global.global_version })) := by
  induction cpus with
  | nil =>
      intro acc hg hl
      exact ⟨hg, hl⟩
  | cons b bs ih =>
      intro acc hg hl
      rw [List.foldl_cons]
      apply ih
      · dsimp only
        split
        · exact hg
        · split
          · exact (prcu_handler_frame acc.1 b 0).1.trans hg
          · exact hg
      · intro c
        dsimp only
        split
        · exact hl c
        · split
          · have hgv : acc.1.global.global_version
                = st.global.global_version := by rw [hg]
            rcases (prcu_handler_frame acc.1 b c).2 with h | h
            · rw [h]
              exact hl c
            · rw [h, hgv]
              rcases hl c with h2 | h2 <;> rw [h2]
              · exact Or.inr rfl
              · exact Or.inr rfl
          · exact hl c

/-- The grace-period scan keeps the global record and either keeps a
local record or sets its version to the global grace-period version. -/
theorem prcu_scan_frame (v : Version) (cpus : List Nat) (st : PrcuState) :
    (prcu_scan v cpus st).1.global = st.global ∧
    ∀ c, ((prcu_scan v cpus st).1.locals c = st.locals c ∨
      (prcu_scan v cpus st).1.locals c
        = { st.locals c with version := st.global.global_version }) :=
  prcu_scan_frame_aux v st cpus (st, []) rfl fun _ => Or.inl rfl

/-- What a completed `synchronize_prcu` did to the state: it advanced the
global grace-period version by one, published that same value as the
global callback version, and each per-CPU record either kept its version
or had it set to the new grace-period version; local callback versions
are untouched. -/
theorem synchronize_prcu_frame (cpus : List Nat) (me : Nat)
    (st st' : PrcuState) (h : synchronize_prcu cpus me st = some st') :
    st'.global.global_version = st.global.global_version + 1 ∧
    st'.global.cb_version = st.global.global_version + 1 ∧
    ∀ c, (((st'.locals c).version = (st.locals c).version ∨
           (st'.locals c).version = st.global.global_version + 1) ∧
          (st'.locals c).cb_version = (st.locals c).cb_version) := by
  have hsp : ∀ c, (sync_publish st me).locals c
      = if c = me then { st.locals me with version := sync_version st }
        else st.locals c := fun c => rfl
  unfold synchronize_prcu at h
  split at h
  · split at h
    · obtain ⟨hsg, hsl⟩ :=
        prcu_scan_frame (sync_version st) cpus (sync_publish st me)
      have hinj := Option.some.inj h
      rw [← hinj]
      dsimp only
      refine ⟨?_, rfl, ?_⟩
      · rw [hsg]
        rfl
      · intro c
        rcases hsl c with hcase | hcase <;> rw [hcase]
        · rw [hsp c]
          by_cases hme : c = me
          · rw [if_pos hme, hme]
            exact ⟨Or.inr rfl, rfl⟩
          · rw [if_neg hme]
            exact ⟨Or.inl rfl, rfl⟩
        · refine ⟨Or.inr rfl, ?_⟩
          dsimp only
          rw [hsp c]
          by_cases hme : c = me
          · rw [if_pos hme, hme]
          · rw [if_neg hme]
    · exact Option.noConfusion h
  · exact Option.noConfusion h

/-- Claim C3: the version-order invariant — `cbv ≤ gpv`, every local
`version ≤ gpv`, every local `cb_version ≤ cbv` — is preserved by every
operation, and across every operation `gpv`, `cbv` and each local
`version` are non-decreasing. -/
theorem c3_version_order (cpus : List Nat) (st st' : PrcuState)
    (hstep : Step cpus st st') (hinv : VersionInv st) :
    VersionInv st' ∧ VersionMono st st' := by
  obtain ⟨hcg, hv, hcb⟩ := hinv
  cases hstep with
  | read_lock cpu =>
      have hg := (prcu_read_lock_frame st cpu 0).1
      refine ⟨⟨?_, ?_, ?_⟩, ?_, ?_, ?_⟩
      · rw [hg]
        exact hcg
      · intro c
        rw [hg, (prcu_read_lock_frame st cpu c).2.1]
        exact hv c
      · intro c
        rw [hg, (prcu_read_lock_frame st cpu c).2.2]
        exact hcb c
      · rw [hg]
      · rw [hg]
      · intro c
        rw [(prcu_read_lock_frame st cpu c).2.1]
  | read_unlock cpu =>
      have hf := prcu_read_unlock_frame st cpu
      refine ⟨⟨?_, ?_, ?_⟩, ?_, ?_, ?_⟩
      · rw [(hf 0).1, (hf 0).2.1]
        exact hcg
      · intro c
        rw [(hf c).1]
        exact le_trans (hf c).2.2.2.2 (max_le (hv c) (le_refl _))
      · intro c
        rw [(hf c).2.1, (hf c).2.2.1]
        exact hcb c
      · rw [(hf 0).1]
      · rw [(hf 0).2.1]
      · intro c
        exact (hf c).2.2.2.1
  | handler cpu =>
      have hg := (prcu_handler_frame st cpu 0).1
      refine ⟨⟨?_, ?_, ?_⟩, ?_, ?_, ?_⟩
      · rw [hg]
        exact hcg
      · intro c
        rw [hg]
        rcases (prcu_handler_frame st cpu c).2 with h | h
        · rw [h]
          exact hv c
        · rw [h]
      · intro c
        rw [hg]
        rcases (prcu_handler_frame st cpu c).2 with h | h
        · rw [h]
          exact hcb c
        · rw [h]
          exact hcb c
      · rw [hg]
      · rw [hg]
      · intro c
        rcases (prcu_handler_frame st cpu c).2 with h | h <;> rw [h]
        exact hv c
  | note_context_switch cpu =>
      have hf := prcu_note_context_switch_frame st cpu
      refine ⟨⟨?_, ?_, ?_⟩, ?_, ?_, ?_⟩
      · rw [(hf 0).1, (hf 0).2.1]
        exact hcg
      · intro c
        rw [(hf c).1]
        exact le_trans (hf c).2.2.2.2 (max_le (hv c) (le_refl _))
      · intro c
        rw [(hf c).2.1, (hf c).2.2.1]
        exact hcb c
      · rw [(hf 0).1]
      · rw [(hf 0).2.1]
      · intro c
        exact (hf c).2.2.2.1
  | call cpu head allocOk =>
      have hg := (call_prcu_frame st cpu head allocOk 0).1
      refine ⟨⟨?_, ?_, ?_⟩, ?_, ?_, ?_⟩
      · rw [hg]
        exact hcg
      · intro c
        rw [hg, (call_prcu_frame st cpu head allocOk c).2.1]
        exact hv c
      · intro c
        rw [hg, (call_prcu_frame st cpu head allocOk c).2.2]
        exact hcb c
      · rw [hg]
      · rw [hg]
      · intro c
        rw [(call_prcu_frame st cpu head allocOk c).2.1]
  | process cpu =>
      have hg := (prcu_process_callbacks_frame st cpu 0).1
      refine ⟨⟨?_, ?_, ?_⟩, ?_, ?_, ?_⟩
      · rw [hg]
        exact hcg
      · intro c
        rw [hg, (prcu_process_callbacks_frame st cpu c).2.1]
        exact hv c
      · intro c
        rw [hg]
        rcases (prcu_process_callbacks_frame st cpu c).2.2 with h | h
        · rw [h]
          exact hcb c
        · rw [h]
      · rw [hg]
      · rw [hg]
      · intro c
        rw [(prcu_process_callbacks_frame st cpu c).2.1]
  | sync _ me h =>
      obtain ⟨hgv, hcbv, hloc⟩ := synchronize_prcu_frame cpus me st st' h
      refine ⟨⟨?_, ?_, ?_⟩, ?_, ?_, ?_⟩
      · rw [hgv, hcbv]
      · intro c
        rw [hgv]
        rcases (hloc c).1 with h2 | h2
        · rw [h2]
          exact le_trans (hv c) (Nat.le_succ _)
        · rw [h2]
      · intro c
        rw [hcbv, (hloc c).2]
        exact le_trans (hcb c) (le_trans hcg (Nat.le_succ _))
      · rw [hgv]
        exact Nat.le_succ _
      · rw [hcbv]
        exact le_trans hcg (Nat.le_succ _)
      · intro c
        rcases (hloc c).1 with h2 | h2
        · rw [h2]
        · rw [h2]
          exact le_trans (hv c) (Nat.le_succ _)

/-- The version-order invariant holds in the freshly initialized
one-CPU state. -/
theorem versionInv_initState : VersionInv initState := by
  refine ⟨le_refl _, ?_, ?_⟩ <;>
    · intro c
      unfold initState
      rw [prcu_init_locals]
      split <;> exact le_refl 0

/-- Witness for `c3_version_order`: the invariant holds initially and is
kept by the read-lock step taken from the initial one-CPU state. -/
theorem c3_version_order_witness :
    VersionInv initState ∧
    VersionInv (prcu_read_lock initState 0) ∧
    VersionMono initState (prcu_read_lock initState 0) := by
  have h := c3_version_order [0] initState (prcu_read_lock initState 0)
    (Step.read_lock initState 0) versionInv_initState
  exact ⟨versionInv_initState, h.1, h.2⟩

end PRCU
